import Mathlib

/-!
Verification of the Aliyun content-censor plugin (`src/main.py`,
class `AliyunCensor`) against its specification.

The development shallowly embeds the plugin's pure logic:

* `splitText` embeds `_split_text` (600-character chunking of the input,
  Python `content[i:i+600]` slicing over code points; text is modelled as
  `List Char`, matching Python's `str` as a sequence of code points).
* `checkSingleCore` / `checkSingleText` embed `_check_single_text`'s
  response handling: the HTTP outcome of one segment's request is a value
  of `HttpOutcome`, Python exceptions are modelled by `Except Unit`, and
  the `except` handlers at the end of `_check_single_text` turn every
  raised exception into the verdict `false`.
* `checkText` embeds `_check_text`: empty text short-circuits to `true`,
  text of at most 600 characters is checked as a single segment, longer
  text is split and the per-segment verdicts are AND-reduced
  (`all(results)` over the `asyncio.gather` results, which preserves
  chunk order).  The network is modelled by an environment `env`
  assigning each dispatched segment the outcome of its request.
* The request signer of `_check_single_text` (lines 60-90) is embedded
  byte-faithfully: UTF-8 encoding, `urllib.parse.quote_plus`, the
  `encode_a` post-replacements, `json.dumps` ASCII escaping, Python's
  `sorted` on key/value pairs, SHA-1, HMAC-SHA1 and Base64.
-/

/-! ### `_split_text`: 600-character chunking (src/main.py lines 48-55) -/

/-- Embedding of `_split_text`: `content[i:i+600]` for `i = 0, 600, ...`,
written as structural chunking (take the first 600 code points, recurse on
the rest); the empty string yields no chunks. -/
def splitText (content : List Char) : List (List Char) :=
  if h : content = [] then []
  else content.take 600 :: splitText (content.drop 600)
termination_by content.length
decreasing_by
  simp only [List.length_drop]
  have : 0 < content.length := List.length_pos.mpr h
  omega

/-! ### Response model for `_check_single_text` (src/main.py lines 92-111) -/

/-- A Python/JSON value as far as the response handling inspects it:
strings, numbers, `null`, and objects (insertion-ordered field lists with
unique keys, as produced by `json` decoding). -/
inductive PyVal where
  | vStr (s : String)
  | vInt (n : Int)
  | vNull
  | vDict (fields : List (String × PyVal))

/-- Outcome of the HTTP POST for one segment: either the transport layer
raised `aiohttp.ClientError`, or a response arrived with a status code and
a decoded JSON object body. -/
inductive HttpOutcome where
  | transportError
  | response (status : Nat) (body : List (String × PyVal))

/-- First value bound to key `k` in a decoded JSON object
(Python `k in d` / `d[k]` / `d.get(k)`; keys are unique). -/
def lookupField (fields : List (String × PyVal)) (k : String) : Option PyVal :=
  (fields.find? (fun p => p.1 == k)).map (fun p => p.2)

/-- Embedding of Python `str.lower()` as used on the risk level: ASCII
lowercasing of every character (the sentinel `"high"` and the remote
levels are ASCII). -/
def pyLower (s : String) : String := String.mk (s.data.map Char.toLower)

/-- The body of `_check_single_text`'s `try` block after the response
arrived (src/main.py lines 94-104), with Python exceptions as `.error ()`:
a non-200 status returns `False`; a body without `"Data"` returns `False`;
otherwise `result["Data"].get("RiskLevel", "").lower() != "high"` is
returned, where `.get` on a non-dict raises `AttributeError` and
`.lower()` on a non-string raises `AttributeError`. -/
def checkSingleCore : HttpOutcome → Except Unit Bool
  | .transportError => .error ()
  | .response status body =>
    if status ≠ 200 then .ok false
    else
      match lookupField body "Data" with
      | none => .ok false
      | some (.vDict df) =>
        match (lookupField df "RiskLevel").getD (.vStr "") with
        | .vStr s => .ok (pyLower s ≠ "high")
        | _ => .error ()
      | some _ => .error ()

/-- Embedding of `_check_single_text`'s verdict: the `except` clauses at
src/main.py lines 106-111 catch `aiohttp.ClientError` and every other
`Exception` and return `False`, so every raised exception becomes the
verdict `false`. -/
def checkSingleText (o : HttpOutcome) : Bool :=
  match checkSingleCore o with
  | .ok b => b
  | .error _ => false

/-! ### `_check_text`: orchestration (src/main.py lines 113-127) -/

/-- Embedding of `_check_text`.  `env` models the network: it assigns to
each dispatched segment the `HttpOutcome` of the request carrying it.
Empty text returns `True` at once; text of length at most 600 is checked
whole; otherwise the text is split and `all(results)` AND-reduces the
per-chunk verdicts gathered in chunk order.  The function is total, so
the `except` at line 126 (which would map an escaping exception to
`False`) has nothing to catch: the result is always a `Bool`. -/
def checkText (env : List Char → HttpOutcome) (content : List Char) : Bool :=
  if content = [] then true
  else if content.length ≤ 600 then checkSingleText (env content)
  else ((splitText content).map (fun chunk => checkSingleText (env chunk))).all (fun r => r)

/-- The list of segment contents on which `_check_text` invokes
`_check_single_text` (read off the three branches of src/main.py
lines 116-124): none for empty text, the whole text for short text, the
chunks of `_split_text` otherwise. -/
def dispatchedSegments (content : List Char) : List (List Char) :=
  if content = [] then []
  else if content.length ≤ 600 then [content]
  else splitText content

/-- A network environment in which every request fails at transport level
(`aiohttp.ClientError`). -/
def envErr : List Char → HttpOutcome := fun _ => .transportError

/-- A network environment answering every request with 200 and a low risk
level. -/
def envLow : List Char → HttpOutcome :=
  fun _ => .response 200 [("Data", .vDict [("RiskLevel", .vStr "low")])]

/-! ### SHA-1 over byte lists (embeds `hashlib.sha1`) -/

/-- Truncation to a 32-bit word. -/
def w32 (n : Nat) : Nat := n % 4294967296

/-- 32-bit left rotation of a word `n < 2^32` by `b < 32` bits. -/
def rotl32 (b n : Nat) : Nat := ((n <<< b) ||| (n >>> (32 - b))) % 4294967296

/-- Big-endian bytes of a 32-bit word. -/
def be32 (n : Nat) : List Nat :=
  [(n >>> 24) &&& 255, (n >>> 16) &&& 255, (n >>> 8) &&& 255, n &&& 255]

/-- Big-endian bytes of a 64-bit word. -/
def be64 (n : Nat) : List Nat :=
  [(n >>> 56) &&& 255, (n >>> 48) &&& 255, (n >>> 40) &&& 255, (n >>> 32) &&& 255,
   (n >>> 24) &&& 255, (n >>> 16) &&& 255, (n >>> 8) &&& 255, n &&& 255]

/-- Big-endian 32-bit words of a byte list (length a multiple of 4). -/
def toWords : List Nat → List Nat
  | b0 :: b1 :: b2 :: b3 :: rest =>
    ((b0 <<< 24) ||| (b1 <<< 16) ||| (b2 <<< 8) ||| b3) :: toWords rest
  | _ => []

/-- SHA-1 round function. -/
def sha1F (t b c d : Nat) : Nat :=
  if t < 20 then (b &&& c) ||| ((b ^^^ 4294967295) &&& d)
  else if t < 40 then b ^^^ c ^^^ d
  else if t < 60 then (b &&& c) ||| (b &&& d) ||| (c &&& d)
  else b ^^^ c ^^^ d

/-- SHA-1 round constants. -/
def sha1K (t : Nat) : Nat :=
  if t < 20 then 0x5A827999
  else if t < 40 then 0x6ED9EBA1
  else if t < 60 then 0x8F1BBCDC
  else 0xCA62C1D6

/-- Next word of the SHA-1 message schedule, from the last 16 words. -/
def nextScheduleWord (w : List Nat) : Nat :=
  rotl32 1 ((w.getD (w.length - 3) 0) ^^^ (w.getD (w.length - 8) 0) ^^^
    (w.getD (w.length - 14) 0) ^^^ (w.getD (w.length - 16) 0))

/-- The 80-word SHA-1 message schedule from the 16 words of one block. -/
def schedule (w16 : List Nat) : List Nat :=
  (List.range 64).foldl (fun w _ => w ++ [nextScheduleWord w]) w16

/-- SHA-1 compression of one 64-byte block into the running state. -/
def sha1Compress (h : Nat × Nat × Nat × Nat × Nat) (block : List Nat) :
    Nat × Nat × Nat × Nat × Nat :=
  let ws := schedule (toWords block)
  let s := ws.enum.foldl (fun st tw =>
    let a := st.1
    let b := st.2.1
    let c := st.2.2.1
    let d := st.2.2.2.1
    let e := st.2.2.2.2
    (w32 (rotl32 5 a + sha1F tw.1 b c d + e + sha1K tw.1 + tw.2),
     a, rotl32 30 b, c, d)) h
  (w32 (h.1 + s.1), w32 (h.2.1 + s.2.1), w32 (h.2.2.1 + s.2.2.1),
   w32 (h.2.2.2.1 + s.2.2.2.1), w32 (h.2.2.2.2 + s.2.2.2.2))

/-- 64-byte blocks of a byte list, with structural recursion on a fuel
counter (the fuel starts at the list length and each step removes at
least one element, so it never runs out). -/
def chunks64F : Nat → List Nat → List (List Nat)
  | _, [] => []
  | 0, _ => []
  | fuel + 1, bs => bs.take 64 :: chunks64F fuel (bs.drop 64)

/-- 64-byte blocks of a byte list. -/
def chunks64 (bs : List Nat) : List (List Nat) := chunks64F bs.length bs

/-- SHA-1 padding: append `0x80`, zeros to 56 mod 64, and the bit length
as a 64-bit big-endian integer. -/
def sha1Pad (msg : List Nat) : List Nat :=
  msg ++ 0x80 :: (List.replicate ((119 - msg.length % 64) % 64) 0 ++ be64 (8 * msg.length))

/-- SHA-1 digest (20 bytes) of a byte list. -/
def sha1 (msg : List Nat) : List Nat :=
  let hs := (chunks64 (sha1Pad msg)).foldl sha1Compress
    (0x67452301, 0xEFCDAB89, 0x98BADCFE, 0x10325476, 0xC3D2E1F0)
  be32 hs.1 ++ be32 hs.2.1 ++ be32 hs.2.2.1 ++ be32 hs.2.2.2.1 ++ be32 hs.2.2.2.2

/-- HMAC-SHA1 (RFC 2104) of a message under a key, both byte lists;
embeds `hmac.new(key, msg, hashlib.sha1).digest()`. -/
def hmacSha1 (key msg : List Nat) : List Nat :=
  let k0 := if 64 < key.length then sha1 key else key
  let k := k0 ++ List.replicate (64 - k0.length) 0
  sha1 ((k.map (fun b => b ^^^ 0x5C)) ++ sha1 ((k.map (fun b => b ^^^ 0x36)) ++ msg))

/-! ### Base64 (embeds `base64.b64encode`) -/

/-- The Base64 alphabet. -/
def b64Alphabet : List Char :=
  "ABCDEFGHIJKLMNOPQRSTUVWXYZabcdefghijklmnopqrstuvwxyz0123456789+/".data

/-- Character for a 6-bit group. -/
def b64Char (n : Nat) : Char := b64Alphabet.getD n 'A'

/-- Standard Base64 encoding with `=` padding. -/
def base64Encode : List Nat → List Char
  | a :: b :: c :: rest =>
    b64Char (a >>> 2) :: b64Char (((a &&& 3) <<< 4) ||| (b >>> 4)) ::
      b64Char (((b &&& 15) <<< 2) ||| (c >>> 6)) :: b64Char (c &&& 63) :: base64Encode rest
  | [a, b] => [b64Char (a >>> 2), b64Char (((a &&& 3) <<< 4) ||| (b >>> 4)),
               b64Char ((b &&& 15) <<< 2), '=']
  | [a] => [b64Char (a >>> 2), b64Char ((a &&& 3) <<< 4), '=', '=']
  | [] => []

/-! ### UTF-8 (Python `str.encode("utf-8")`) -/

/-- UTF-8 bytes of a single code point. -/
def utf8Char (n : Nat) : List Nat :=
  if n < 0x80 then [n]
  else if n < 0x800 then [0xC0 ||| (n >>> 6), 0x80 ||| (n &&& 0x3F)]
  else if n < 0x10000 then
    [0xE0 ||| (n >>> 12), 0x80 ||| ((n >>> 6) &&& 0x3F), 0x80 ||| (n &&& 0x3F)]
  else
    [0xF0 ||| (n >>> 18), 0x80 ||| ((n >>> 12) &&& 0x3F),
     0x80 ||| ((n >>> 6) &&& 0x3F), 0x80 ||| (n &&& 0x3F)]

/-- UTF-8 bytes of a code-point sequence. -/
def utf8EncodeChars (s : List Char) : List Nat := (s.map (fun c => utf8Char c.toNat)).flatten

/-- UTF-8 bytes of a string. -/
def utf8Encode (s : String) : List Nat := utf8EncodeChars s.data

/-! ### `urllib.parse.quote_plus` and the source's `encode_a` -/

/-- Bytes never percent-encoded by `urllib.parse.quote`: ASCII letters,
digits, and `_ . - ~`. -/
def isSafeByte (b : Nat) : Bool :=
  (0x41 ≤ b && b ≤ 0x5A) || (0x61 ≤ b && b ≤ 0x7A) || (0x30 ≤ b && b ≤ 0x39) ||
    b == 0x5F || b == 0x2E || b == 0x2D || b == 0x7E

/-- Uppercase hexadecimal digit. -/
def hexUpper (n : Nat) : Char := "0123456789ABCDEF".data.getD n '0'

/-- Embedding of `urllib.parse.quote_plus` (with its default `safe=''`):
UTF-8 encode, keep safe bytes, turn spaces into `+`, percent-encode the
rest with uppercase hex. -/
def quotePlus (s : List Char) : List Char :=
  ((utf8EncodeChars s).map (fun b =>
    if isSafeByte b then [Char.ofNat b]
    else if b == 0x20 then ['+']
    else ['%', hexUpper (b >>> 4), hexUpper (b &&& 15)])).flatten

/-- Embedding of Python `str.replace`: replace non-overlapping occurrences
of `pat` left to right, never rescanning replaced text (all patterns used
here are non-empty; an empty pattern acts as the identity).  Structural
recursion on a fuel counter started at the list length: every step
consumes at least one character, so the fuel never runs out. -/
def replaceFuel (pat rep : List Char) : Nat → List Char → List Char
  | _, [] => []
  | 0, s => s
  | fuel + 1, c :: rest =>
    if pat ≠ [] ∧ pat = (c :: rest).take pat.length then
      rep ++ replaceFuel pat rep fuel ((c :: rest).drop pat.length)
    else c :: replaceFuel pat rep fuel rest

/-- Python `s.replace(pat, rep)` on code-point lists. -/
def replaceAll (pat rep s : List Char) : List Char := replaceFuel pat rep s.length s

/-- The source's `encode_a` on code-point lists:
`quote_plus`, then `+`→`%20`, `*`→`%2A`, `%7E`→`~` (src/main.py line 76). -/
def encodeAList (s : List Char) : List Char :=
  replaceAll "%7E".data "~".data
    (replaceAll "*".data "%2A".data
      (replaceAll "+".data "%20".data (quotePlus s)))

/-- The source's `encode_a` on strings. -/
def encodeA (s : String) : String := String.mk (encodeAList s.data)

/-! ### `json.dumps({"content": content})` (src/main.py line 70) -/

/-- Lowercase hexadecimal digit. -/
def hexLower (n : Nat) : Char := "0123456789abcdef".data.getD n '0'

/-- A `\uXXXX` escape. -/
def uEsc (n : Nat) : List Char :=
  ['\\', 'u', hexLower ((n >>> 12) &&& 15), hexLower ((n >>> 8) &&& 15),
   hexLower ((n >>> 4) &&& 15), hexLower (n &&& 15)]

/-- `json.dumps` escaping of one character with its default
`ensure_ascii=True`: short escapes for `"`, `\\` and control characters
with a mnemonic, `\uXXXX` for other characters outside `0x20`-`0x7E`,
surrogate pairs beyond the BMP. -/
def jsonEscChar (c : Char) : List Char :=
  let n := c.toNat
  if n == 0x22 then ['\\', '\"']
  else if n == 0x5C then ['\\', '\\']
  else if 0x20 ≤ n && n ≤ 0x7E then [c]
  else if n == 8 then ['\\', 'b']
  else if n == 9 then ['\\', 't']
  else if n == 10 then ['\\', 'n']
  else if n == 12 then ['\\', 'f']
  else if n == 13 then ['\\', 'r']
  else if n < 0x10000 then uEsc n
  else uEsc (0xD800 + ((n - 0x10000) >>> 10)) ++ uEsc (0xDC00 + ((n - 0x10000) &&& 0x3FF))

/-- A JSON string literal. -/
def jsonQuote (s : List Char) : List Char := '\"' :: ((s.map jsonEscChar).flatten ++ ['\"'])

/-- Embedding of `json.dumps(\x7b"content": content\x7d)` with the json
module's default separator `": "`. -/
def jsonDumpsContent (content : List Char) : List Char :=
  Char.ofNat 123 :: (jsonQuote "content".data ++ (':' :: ' ' :: (jsonQuote content ++ [Char.ofNat 125])))

/-! ### The pre-signature parameter set and canonicalization
(src/main.py lines 60-90) -/

/-- The parameter dict `params_a` of `_check_single_text` before the
signature is added, in source insertion order, with the timestamp and the
nonce as parameters (the source draws them from the clock and
`uuid.uuid4()`). -/
def preParams (keyId timestamp nonce : String) (content : List Char) : List (String × String) :=
  [("Format", "JSON"),
   ("Version", "2022-03-02"),
   ("AccessKeyId", keyId),
   ("SignatureMethod", "HMAC-SHA1"),
   ("Timestamp", timestamp),
   ("SignatureVersion", "1.0"),
   ("SignatureNonce", nonce),
   ("Action", "TextModerationPlus"),
   ("Service", "chat_detection_pro"),
   ("ServiceParameters", String.mk (jsonDumpsContent content))]

/-- Three-way comparison of code-point lists, the order Python uses on
strings. -/
def cmpChars : List Char → List Char → Ordering
  | [], [] => .eq
  | [], _ :: _ => .lt
  | _ :: _, [] => .gt
  | a :: as, b :: bs =>
    if a.toNat < b.toNat then .lt
    else if b.toNat < a.toNat then .gt
    else cmpChars as bs

/-- Three-way comparison of `(key, value)` pairs, the order Python's
`sorted` uses on the 2-tuples of `params_a.items()`: by key, then by
value. -/
def cmpPair (p q : String × String) : Ordering :=
  match cmpChars p.1.data q.1.data with
  | .eq => cmpChars p.2.data q.2.data
  | o => o

/-- The sorting relation for `sorted(params_a.items())`. -/
def pairLe (p q : String × String) : Prop := cmpPair p q ≠ .gt

instance : DecidableRel pairLe :=
  fun p q => inferInstanceAs (Decidable (cmpPair p q ≠ .gt))

/-- Embedding of `sorted(params_a.items())` (src/main.py line 73). -/
def sortedParams (ps : List (String × String)) : List (String × String) :=
  List.insertionSort pairLe ps

/-- Embedding of `canonicalized_query` (src/main.py lines 78-79). -/
def canonicalizedQuery (ps : List (String × String)) : String :=
  String.intercalate "&" ((sortedParams ps).map (fun kv => encodeA kv.1 ++ "=" ++ encodeA kv.2))

/-- Embedding of `string_to_sign` (src/main.py line 80). -/
def stringToSign (ps : List (String × String)) : String :=
  "POST&" ++ encodeA "/" ++ "&" ++ encodeA (canonicalizedQuery ps)

/-- Embedding of `signature` (src/main.py lines 81-88): Base64 of the
HMAC-SHA1 of the string-to-sign under the key `access_key_secret + "&"`,
all strings UTF-8 encoded. -/
def signatureOf (secret : String) (ps : List (String × String)) : String :=
  String.mk (base64Encode (hmacSha1 (utf8Encode (secret ++ "&")) (utf8Encode (stringToSign ps))))

/-- The full parameter set sent as the request: `params_a` with the
computed signature appended under the key `"Signature"`
(src/main.py line 90). -/
def buildSignedParams (keyId secret timestamp nonce : String) (content : List Char) :
    List (String × String) :=
  preParams keyId timestamp nonce content ++
    [("Signature", signatureOf secret (preParams keyId timestamp nonce content))]

/-- First value bound to key `k` in a string-valued parameter list. -/
def lookupParam (ps : List (String × String)) (k : String) : Option String :=
  (ps.find? (fun p => p.1 == k)).map (fun p => p.2)

/-! ## Helper lemmas about `splitText` and `checkText` -/

theorem splitText_nil : splitText [] = [] := by
  rw [splitText.eq_def]
  simp

theorem splitText_cons {c : List Char} (h : c ≠ []) :
    splitText c = c.take 600 :: splitText (c.drop 600) := by
  rw [splitText.eq_def]
  simp [h]

theorem splitText_eq_nil {c : List Char} : splitText c = [] ↔ c = [] := by
  constructor
  · intro hs
    by_contra hc
    rw [splitText_cons hc] at hs
    cases hs
  · intro hc
    subst hc
    exact splitText_nil

theorem splitText_flatten (c : List Char) : (splitText c).flatten = c := by
  induction c using splitText.induct with
  | case1 =>
    rw [splitText_nil]
    rfl
  | case2 c h ih =>
    rw [splitText_cons h]
    simp only [List.flatten_cons, ih, List.take_append_drop]

theorem splitText_short {c : List Char} (h1 : c ≠ []) (h2 : c.length ≤ 600) :
    splitText c = [c] := by
  rw [splitText_cons h1, List.drop_eq_nil_of_le h2, splitText_nil, List.take_of_length_le h2]

theorem splitText_count (c : List Char) :
    c ≠ [] → (splitText c).length = (c.length + 599) / 600 := by
  induction c using splitText.induct with
  | case1 =>
    intro hc
    exact absurd rfl hc
  | case2 c h ih =>
    intro _
    rw [splitText_cons h]
    by_cases hlen : c.length ≤ 600
    · rw [List.drop_eq_nil_of_le hlen, splitText_nil]
      have hp : 0 < c.length := List.length_pos.mpr h
      simp only [List.length_cons, List.length_nil]
      omega
    · push_neg at hlen
      have hd : c.drop 600 ≠ [] := by
        intro hh
        have := congrArg List.length hh
        simp only [List.length_drop, List.length_nil] at this
        omega
      rw [List.length_cons, ih hd, List.length_drop]
      omega

theorem splitText_chunk_bounds (c : List Char) :
    ∀ seg ∈ splitText c, 0 < seg.length ∧ seg.length ≤ 600 := by
  induction c using splitText.induct with
  | case1 =>
    rw [splitText_nil]
    intro seg hs
    cases hs
  | case2 c h ih =>
    rw [splitText_cons h]
    intro seg hs
    rcases List.mem_cons.mp hs with h1 | h2
    · subst h1
      have hp : 0 < c.length := List.length_pos.mpr h
      refine ⟨?_, ?_⟩ <;> simp only [List.length_take] <;> omega
    · exact ih seg h2

theorem splitText_dropLast (c : List Char) :
    ∀ seg ∈ (splitText c).dropLast, seg.length = 600 := by
  induction c using splitText.induct with
  | case1 =>
    rw [splitText_nil]
    intro seg hs
    cases hs
  | case2 c h ih =>
    rw [splitText_cons h]
    by_cases hrest : splitText (c.drop 600) = []
    · rw [hrest]
      intro seg hs
      simp at hs
    · rw [List.dropLast_cons_of_ne_nil hrest]
      intro seg hs
      rcases List.mem_cons.mp hs with h1 | h2
      · subst h1
        have hd : c.drop 600 ≠ [] := by
          intro hh
          exact hrest (by rw [hh]; exact splitText_nil)
        have hlen : 600 < c.length := by
          by_contra hle
          push_neg at hle
          exact hd (List.drop_eq_nil_of_le hle)
        simp only [List.length_take]
        omega
      · exact ih seg h2

theorem checkText_eq_all (env : List Char → HttpOutcome) (c : List Char) (h : c ≠ []) :
    checkText env c
      = ((splitText c).map (fun seg => checkSingleText (env seg))).all (fun r => r) := by
  unfold checkText
  rw [if_neg h]
  by_cases h2 : c.length ≤ 600
  · rw [if_pos h2, splitText_short h h2]
    simp
  · rw [if_neg h2]

theorem dispatchedSegments_short (c : List Char) (h : c ≠ []) (h2 : c.length ≤ 600) :
    dispatchedSegments c = [c] := by
  unfold dispatchedSegments
  rw [if_neg h, if_pos h2]

theorem all_map_eq_false {α : Type} (f : α → Bool) (l : List α) (x : α)
    (hx : x ∈ l) (hfx : f x = false) : (l.map f).all (fun r => r) = false := by
  rw [List.all_eq_false]
  exact ⟨f x, List.mem_map_of_mem f hx, by simp [hfx]⟩

/-! ## Claim theorems: splitting and orchestration -/

/-- C1: for every non-empty text, the overall verdict of `_check_text`
equals the logical AND of the `_check_single_text` verdicts over its
`_split_text` segments: it is `true` iff every segment's verdict is
`true`, so any one blocked or errored segment makes the result `false`. -/
theorem checkText_and_reduction (env : List Char → HttpOutcome) (c : List Char) (h : c ≠ []) :
    checkText env c
      = ((splitText c).map (fun seg => checkSingleText (env seg))).all (fun r => r)
  ∧ (checkText env c = true ↔ ∀ seg ∈ splitText c, checkSingleText (env seg) = true) := by
  refine ⟨checkText_eq_all env c h, ?_⟩
  rw [checkText_eq_all env c h]
  simp [List.all_eq_true]

/-- Witness for `checkText_and_reduction` at the one-character text
`"a"` under an all-errors network. -/
theorem checkText_and_reduction_witness :
    (['a'] ≠ ([] : List Char))
  ∧ (checkText envErr ['a']
      = ((splitText ['a']).map (fun seg => checkSingleText (envErr seg))).all (fun r => r)
    ∧ (checkText envErr ['a'] = true ↔ ∀ seg ∈ splitText ['a'], checkSingleText (envErr seg) = true)) :=
  ⟨by decide, checkText_and_reduction envErr ['a'] (by decide)⟩

/-- C2: for text longer than 600 characters, `_split_text` produces
exactly `ceil(L/600)` segments, each at most 600 characters, all but
possibly the last exactly 600, and their in-order concatenation is the
original text (hence the segments are contiguous, non-overlapping and in
original order, with no character lost or duplicated). -/
theorem splitText_spec_of_long (c : List Char) (h : 600 < c.length) :
    (splitText c).length = (c.length + 599) / 600
  ∧ (splitText c).flatten = c
  ∧ (∀ seg ∈ splitText c, seg.length ≤ 600)
  ∧ (∀ seg ∈ (splitText c).dropLast, seg.length = 600) := by
  have hne : c ≠ [] := by
    intro h0
    rw [h0] at h
    simp at h
  exact ⟨splitText_count c hne, splitText_flatten c,
    fun seg hs => (splitText_chunk_bounds c seg hs).2, splitText_dropLast c⟩

/-- Witness for `splitText_spec_of_long` at a 601-character text. -/
theorem splitText_spec_of_long_witness :
    600 < (List.replicate 601 'a').length
  ∧ ((splitText (List.replicate 601 'a')).length = ((List.replicate 601 'a').length + 599) / 600
    ∧ (splitText (List.replicate 601 'a')).flatten = List.replicate 601 'a'
    ∧ (∀ seg ∈ splitText (List.replicate 601 'a'), seg.length ≤ 600)
    ∧ (∀ seg ∈ (splitText (List.replicate 601 'a')).dropLast, seg.length = 600)) :=
  ⟨by rw [List.length_replicate]; omega,
   splitText_spec_of_long (List.replicate 601 'a') (by rw [List.length_replicate]; omega)⟩

/-- C7: for non-empty text of at most 600 characters, `_check_text`
dispatches exactly one segment check carrying the whole text, and this
fast path agrees with the general path: `_split_text` returns the
one-element list holding the text, and the verdict equals the
AND-reduction over that single segment. -/
theorem checkText_single_segment (env : List Char → HttpOutcome) (c : List Char)
    (h1 : c ≠ []) (h2 : c.length ≤ 600) :
    splitText c = [c]
  ∧ dispatchedSegments c = [c]
  ∧ checkText env c = checkSingleText (env c)
  ∧ checkText env c
      = ((splitText c).map (fun seg => checkSingleText (env seg))).all (fun r => r) := by
  refine ⟨splitText_short h1 h2, dispatchedSegments_short c h1 h2, ?_, checkText_eq_all env c h1⟩
  unfold checkText
  rw [if_neg h1, if_pos h2]

/-- Witness for `checkText_single_segment` at the text `"a"` under an
all-allow network. -/
theorem checkText_single_segment_witness :
    (['a'] ≠ ([] : List Char))
  ∧ (['a'] : List Char).length ≤ 600
  ∧ (splitText ['a'] = [['a']]
    ∧ dispatchedSegments ['a'] = [['a']]
    ∧ checkText envLow ['a'] = checkSingleText (envLow ['a'])
    ∧ checkText envLow ['a']
        = ((splitText ['a']).map (fun seg => checkSingleText (envLow seg))).all (fun r => r)) :=
  ⟨by decide, by decide, checkText_single_segment envLow ['a'] (by decide) (by decide)⟩

/-- C8: for the empty text, `_check_text` returns `true` immediately and
no segment check is dispatched (`_split_text` also yields no segment). -/
theorem checkText_empty (env : List Char → HttpOutcome) :
    checkText env [] = true ∧ dispatchedSegments [] = [] ∧ splitText [] = [] :=
  ⟨rfl, rfl, splitText_nil⟩

/-- C9: `_split_text` returns the empty list iff its input is empty, and
every chunk of a non-empty input has between 1 and 600 characters, so no
empty segment is ever dispatched to the signer. -/
theorem splitText_chunks_invariant (c : List Char) :
    (splitText c = [] ↔ c = [])
  ∧ ∀ seg ∈ splitText c, 0 < seg.length ∧ seg.length ≤ 600 :=
  ⟨splitText_eq_nil, splitText_chunk_bounds c⟩

/-- Witness for `splitText_chunks_invariant`: the single chunk of the
text `"a"` has length between 1 and 600. -/
theorem splitText_chunks_invariant_witness :
    0 < (['a'] : List Char).length ∧ (['a'] : List Char).length ≤ 600 :=
  (splitText_chunks_invariant ['a']).2 ['a']
    (by rw [splitText_short (by decide) (by decide)]; exact List.mem_singleton_self ['a'])

/-! ## Claim theorems: per-segment verdict and failure semantics -/

/-- C5: for a 200 response whose body carries the `Data` envelope, the
segment verdict is `true` iff the `RiskLevel` field, compared
case-insensitively, is not the sentinel `"high"`; an absent `RiskLevel`
(Python defaults it to `""`) is treated as allowed. -/
theorem riskLevel_verdict :
    (∀ (body df : List (String × PyVal)) (s : String),
      lookupField body "Data" = some (.vDict df) →
      lookupField df "RiskLevel" = some (.vStr s) →
      (checkSingleText (.response 200 body) = true ↔ pyLower s ≠ "high"))
  ∧ (∀ body df : List (String × PyVal),
      lookupField body "Data" = some (.vDict df) →
      lookupField df "RiskLevel" = none →
      checkSingleText (.response 200 body) = true) := by
  constructor
  · intro body df s hD hR
    simp [checkSingleText, checkSingleCore, hD, hR]
  · intro body df hD hR
    simp [checkSingleText, checkSingleCore, hD, hR]
    decide

/-- Witness for `riskLevel_verdict`: the mixed-case level `"High"` is
blocked (`.toLower` makes the comparison case-insensitive). -/
theorem riskLevel_verdict_witness :
    (checkSingleText (.response 200 [("Data", PyVal.vDict [("RiskLevel", PyVal.vStr "High")])]) = true
      ↔ pyLower "High" ≠ "high") :=
  riskLevel_verdict.1 [("Data", PyVal.vDict [("RiskLevel", PyVal.vStr "High")])]
    [("RiskLevel", PyVal.vStr "High")] "High" rfl rfl

/-- C6: `_check_text` is a total Boolean function (every exception inside
a segment check is caught and becomes `false`), and each failure category
— transport error, non-200 status, missing `Data` envelope, any other
raised exception (modelled by `checkSingleCore = .error ()`) — resolves
the affected segment's verdict to `false`; once such a segment is among
the dispatched ones, the overall verdict is `false`. -/
theorem checkText_fail_closed :
    (checkSingleText .transportError = false)
  ∧ (∀ (status : Nat) (body : List (String × PyVal)), status ≠ 200 →
      checkSingleText (.response status body) = false)
  ∧ (∀ body : List (String × PyVal), lookupField body "Data" = none →
      checkSingleText (.response 200 body) = false)
  ∧ (∀ o : HttpOutcome, checkSingleCore o = .error () → checkSingleText o = false)
  ∧ (∀ (env : List Char → HttpOutcome) (c seg : List Char),
      seg ∈ dispatchedSegments c → checkSingleText (env seg) = false →
      checkText env c = false) := by
  refine ⟨rfl, ?_, ?_, ?_, ?_⟩
  · intro status body h
    simp [checkSingleText, checkSingleCore, h]
  · intro body h
    simp [checkSingleText, checkSingleCore, h]
  · intro o h
    simp [checkSingleText, h]
  · intro env c seg hmem hbad
    unfold dispatchedSegments at hmem
    by_cases h0 : c = []
    · rw [if_pos h0] at hmem
      cases hmem
    · rw [if_neg h0] at hmem
      by_cases h1 : c.length ≤ 600
      · rw [if_pos h1] at hmem
        rcases List.mem_singleton.mp hmem with rfl
        unfold checkText
        rw [if_neg h0, if_pos h1]
        exact hbad
      · rw [if_neg h1] at hmem
        rw [checkText_eq_all env c h0]
        exact all_map_eq_false _ _ seg hmem hbad

/-- Witness for `checkText_fail_closed`: an HTTP 500 response blocks a
segment, and a transport error on the only segment of `"a"` makes the
whole verdict `false`. -/
theorem checkText_fail_closed_witness :
    (500 ≠ 200)
  ∧ checkSingleText (.response 500 []) = false
  ∧ checkText envErr ['a'] = false :=
  ⟨by decide, checkText_fail_closed.2.1 500 [] (by decide),
   checkText_fail_closed.2.2.2.2 envErr ['a'] ['a']
     (by rw [dispatchedSegments_short ['a'] (by decide) (by decide)]
         exact List.mem_singleton_self ['a'])
     rfl⟩

/-- C10: for a 200 response whose `Data` envelope is present but whose
`RiskLevel` value is not a string, `.lower()` raises, the generic
exception handler catches it, and the segment is treated as blocked:
`checkSingleCore` is an error and the verdict is `false`. -/
theorem nonString_riskLevel_blocked :
    ∀ (body df : List (String × PyVal)) (v : PyVal),
      lookupField body "Data" = some (.vDict df) →
      lookupField df "RiskLevel" = some v →
      (∀ s, v ≠ .vStr s) →
      checkSingleCore (.response 200 body) = .error ()
      ∧ checkSingleText (.response 200 body) = false := by
  intro body df v hD hR hv
  have hcore : checkSingleCore (.response 200 body) = .error () := by
    simp only [checkSingleCore, hD, hR]
    cases v with
    | vStr s => exact absurd rfl (hv s)
    | vInt n => simp
    | vNull => simp
    | vDict fields => simp
  exact ⟨hcore, by simp [checkSingleText, hcore]⟩

/-- Witness for `nonString_riskLevel_blocked` at the numeric risk level
`3`. -/
theorem nonString_riskLevel_blocked_witness :
    checkSingleCore (.response 200 [("Data", PyVal.vDict [("RiskLevel", PyVal.vInt 3)])]) = .error ()
  ∧ checkSingleText (.response 200 [("Data", PyVal.vDict [("RiskLevel", PyVal.vInt 3)])]) = false :=
  nonString_riskLevel_blocked [("Data", PyVal.vDict [("RiskLevel", PyVal.vInt 3)])]
    [("RiskLevel", PyVal.vInt 3)] (PyVal.vInt 3) rfl rfl (fun s h => PyVal.noConfusion h)

/-! ## Helper lemmas about the pair comparison used by `sorted` -/

theorem charToNat_inj {a b : Char} (h : a.toNat = b.toNat) : a = b := by
  have h2 := congrArg Char.ofNat h
  rwa [Char.ofNat_toNat, Char.ofNat_toNat] at h2

theorem stringData_inj {s t : String} (h : s.data = t.data) : s = t := by
  cases s
  cases t
  exact congrArg String.mk h

theorem cmpChars_eq_iff : ∀ (a b : List Char), cmpChars a b = .eq ↔ a = b := by
  intro a
  induction a with
  | nil =>
    intro b
    cases b with
    | nil => simp [cmpChars]
    | cons y ys => simp [cmpChars]
  | cons x xs ih =>
    intro b
    cases b with
    | nil => simp [cmpChars]
    | cons y ys =>
      simp only [cmpChars, List.cons.injEq]
      by_cases h1 : x.toNat < y.toNat
      · rw [if_pos h1]
        constructor
        · intro h
          exact Ordering.noConfusion h
        · rintro ⟨rfl, -⟩
          omega
      · rw [if_neg h1]
        by_cases h2 : y.toNat < x.toNat
        · rw [if_pos h2]
          constructor
          · intro h
            exact Ordering.noConfusion h
          · rintro ⟨rfl, -⟩
            omega
        · rw [if_neg h2]
          have hxy : x = y := charToNat_inj (by omega)
          rw [ih ys]
          subst hxy
          simp

theorem cmpChars_swap : ∀ (a b : List Char), cmpChars b a = (cmpChars a b).swap := by
  intro a
  induction a with
  | nil =>
    intro b
    cases b with
    | nil => rfl
    | cons y ys => rfl
  | cons x xs ih =>
    intro b
    cases b with
    | nil => rfl
    | cons y ys =>
      simp only [cmpChars]
      rcases Nat.lt_trichotomy x.toNat y.toNat with h | h | h
      · simp only [if_pos h, if_neg (show ¬y.toNat < x.toNat by omega)]
        rfl
      · simp only [if_neg (show ¬x.toNat < y.toNat by omega),
          if_neg (show ¬y.toNat < x.toNat by omega)]
        exact ih ys
      · simp only [if_pos h, if_neg (show ¬x.toNat < y.toNat by omega)]
        rfl

theorem cmpChars_cons_lt {x y : Char} {xs ys : List Char}
    (h : cmpChars (x :: xs) (y :: ys) = .lt) :
    x.toNat < y.toNat ∨ (x.toNat = y.toNat ∧ cmpChars xs ys = .lt) := by
  simp only [cmpChars] at h
  by_cases h1 : x.toNat < y.toNat
  · exact Or.inl h1
  · rw [if_neg h1] at h
    by_cases h2 : y.toNat < x.toNat
    · rw [if_pos h2] at h
      exact Ordering.noConfusion h
    · rw [if_neg h2] at h
      exact Or.inr ⟨by omega, h⟩

theorem cmpChars_cons_lt_intro {x y : Char} {xs ys : List Char}
    (h : x.toNat < y.toNat ∨ (x.toNat = y.toNat ∧ cmpChars xs ys = .lt)) :
    cmpChars (x :: xs) (y :: ys) = .lt := by
  simp only [cmpChars]
  rcases h with h | ⟨h, hc⟩
  · rw [if_pos h]
  · rw [if_neg (by omega : ¬x.toNat < y.toNat), if_neg (by omega : ¬y.toNat < x.toNat)]
    exact hc

theorem cmpChars_lt_trans : ∀ (a b c : List Char),
    cmpChars a b = .lt → cmpChars b c = .lt → cmpChars a c = .lt := by
  intro a
  induction a with
  | nil =>
    intro b c hab hbc
    cases c with
    | nil =>
      cases b with
      | nil => exact Ordering.noConfusion hbc
      | cons y ys => exact Ordering.noConfusion hbc
    | cons z zs => rfl
  | cons x xs ih =>
    intro b c hab hbc
    cases b with
    | nil => exact Ordering.noConfusion hab
    | cons y ys =>
      cases c with
      | nil => exact Ordering.noConfusion hbc
      | cons z zs =>
        rcases cmpChars_cons_lt hab with h1 | ⟨h1, hc1⟩
        · rcases cmpChars_cons_lt hbc with h2 | ⟨h2, hc2⟩
          · exact cmpChars_cons_lt_intro (Or.inl (by omega))
          · exact cmpChars_cons_lt_intro (Or.inl (by omega))
        · rcases cmpChars_cons_lt hbc with h2 | ⟨h2, hc2⟩
          · exact cmpChars_cons_lt_intro (Or.inl (by omega))
          · exact cmpChars_cons_lt_intro (Or.inr ⟨by omega, ih ys zs hc1 hc2⟩)

theorem cmpPair_swap (p q : String × String) : cmpPair q p = (cmpPair p q).swap := by
  unfold cmpPair
  rw [cmpChars_swap p.1.data q.1.data, cmpChars_swap p.2.data q.2.data]
  cases cmpChars p.1.data q.1.data <;> rfl

theorem cmpPair_eq_iff {p q : String × String} : cmpPair p q = .eq ↔ p = q := by
  unfold cmpPair
  cases h1 : cmpChars p.1.data q.1.data with
  | eq =>
    have hk : p.1 = q.1 := stringData_inj ((cmpChars_eq_iff _ _).mp h1)
    constructor
    · intro h2
      exact Prod.ext hk (stringData_inj ((cmpChars_eq_iff _ _).mp h2))
    · intro h
      subst h
      exact (cmpChars_eq_iff _ _).mpr rfl
  | lt =>
    constructor
    · intro h
      exact Ordering.noConfusion h
    · intro h
      subst h
      rw [(cmpChars_eq_iff p.1.data p.1.data).mpr rfl] at h1
      exact Ordering.noConfusion h1
  | gt =>
    constructor
    · intro h
      exact Ordering.noConfusion h
    · intro h
      subst h
      rw [(cmpChars_eq_iff p.1.data p.1.data).mpr rfl] at h1
      exact Ordering.noConfusion h1

theorem cmpPair_lt_trans {a b c : String × String}
    (h1 : cmpPair a b = .lt) (h2 : cmpPair b c = .lt) : cmpPair a c = .lt := by
  unfold cmpPair at h1 h2 ⊢
  cases hk1 : cmpChars a.1.data b.1.data with
  | gt =>
    rw [hk1] at h1
    exact Ordering.noConfusion h1
  | lt =>
    cases hk2 : cmpChars b.1.data c.1.data with
    | gt =>
      rw [hk2] at h2
      exact Ordering.noConfusion h2
    | lt =>
      rw [cmpChars_lt_trans _ _ _ hk1 hk2]
    | eq =>
      have hbc : b.1 = c.1 := stringData_inj ((cmpChars_eq_iff _ _).mp hk2)
      rw [← hbc, hk1]
  | eq =>
    rw [hk1] at h1
    have hab : a.1 = b.1 := stringData_inj ((cmpChars_eq_iff _ _).mp hk1)
    cases hk2 : cmpChars b.1.data c.1.data with
    | gt =>
      rw [hk2] at h2
      exact Ordering.noConfusion h2
    | lt =>
      rw [hab, hk2]
    | eq =>
      rw [hk2] at h2
      have hbc : b.1 = c.1 := stringData_inj ((cmpChars_eq_iff _ _).mp hk2)
      have hac : a.1 = c.1 := hab.trans hbc
      rw [hac, (cmpChars_eq_iff c.1.data c.1.data).mpr rfl]
      exact cmpChars_lt_trans _ _ _ h1 h2

theorem pairLe_cases {a b : String × String} (h : pairLe a b) :
    cmpPair a b = .lt ∨ a = b := by
  unfold pairLe at h
  cases hab : cmpPair a b with
  | lt => exact Or.inl rfl
  | eq => exact Or.inr (cmpPair_eq_iff.mp hab)
  | gt => exact absurd hab h

/-! ## Claim theorems: request signing and canonicalization -/

/-- C3: the `Signature` parameter of the built request equals
base64(HMAC-SHA1(key = access_key_secret + `"&"`, message =
`"POST&"` + encode(`"/"`) + `"&"` + encode(canonical query string))),
and the signature is deterministic: equal credentials, segment text,
timestamp and nonce always yield the equal signature. -/
theorem signature_formula (keyId secret timestamp nonce : String) (content : List Char) :
    lookupParam (buildSignedParams keyId secret timestamp nonce content) "Signature"
      = some (String.mk (base64Encode (hmacSha1 (utf8Encode (secret ++ "&"))
          (utf8Encode ("POST&" ++ encodeA "/" ++ "&" ++
            encodeA (canonicalizedQuery (preParams keyId timestamp nonce content)))))))
  ∧ (∀ (k2 s2 t2 n2 : String) (c2 : List Char),
      k2 = keyId → s2 = secret → t2 = timestamp → n2 = nonce → c2 = content →
      signatureOf s2 (preParams k2 t2 n2 c2)
        = signatureOf secret (preParams keyId timestamp nonce content)) := by
  refine ⟨rfl, ?_⟩
  intro k2 s2 t2 n2 c2 h1 h2 h3 h4 h5
  subst h1
  subst h2
  subst h3
  subst h4
  subst h5
  rfl

/-- Witness for `signature_formula` at concrete credentials, timestamp,
nonce and segment. -/
theorem signature_formula_witness :
    lookupParam (buildSignedParams "a" "b" "c" "d" ['x']) "Signature"
      = some (String.mk (base64Encode (hmacSha1 (utf8Encode ("b" ++ "&"))
          (utf8Encode ("POST&" ++ encodeA "/" ++ "&" ++
            encodeA (canonicalizedQuery (preParams "a" "c" "d" ['x'])))))))
  ∧ signatureOf "b" (preParams "a" "c" "d" ['x']) = signatureOf "b" (preParams "a" "c" "d" ['x']) :=
  ⟨(signature_formula "a" "b" "c" "d" ['x']).1,
   (signature_formula "a" "b" "c" "d" ['x']).2 "a" "b" "c" "d" ['x'] rfl rfl rfl rfl rfl⟩

/-- C4: the canonical query string sorts the pre-signature parameters by
key in ascending byte order and percent-encodes with `+`→`%20`,
`*`→`%2A`, `%7E`→`~`; parameter maps with the same pairs give the same
canonical string regardless of insertion order, and the `Signature`
parameter is only appended afterward and is never among the
canonicalized pre-signature parameters. -/
theorem canonicalization_spec :
    (∀ p q : List (String × String), p.Perm q → canonicalizedQuery p = canonicalizedQuery q)
  ∧ encodeA " " = "%20"
  ∧ encodeA "*" = "%2A"
  ∧ encodeA "~" = "~"
  ∧ canonicalizedQuery [("Action", "X"), ("AccessKeyId", "Y")] = "AccessKeyId=Y&Action=X"
  ∧ (∀ (keyId timestamp nonce : String) (content : List Char),
      ∀ p ∈ preParams keyId timestamp nonce content, p.1 ≠ "Signature")
  ∧ (∀ (keyId secret timestamp nonce : String) (content : List Char),
      buildSignedParams keyId secret timestamp nonce content
        = preParams keyId timestamp nonce content
          ++ [("Signature", signatureOf secret (preParams keyId timestamp nonce content))]) := by
  haveI : IsTotal (String × String) pairLe := ⟨by
    intro a b
    unfold pairLe
    by_cases h : cmpPair a b = .gt
    · right
      rw [cmpPair_swap a b, h]
      decide
    · left
      exact h⟩
  haveI : IsTrans (String × String) pairLe := ⟨by
    intro a b c hab hbc
    rcases pairLe_cases hab with h1 | rfl
    · rcases pairLe_cases hbc with h2 | rfl
      · unfold pairLe
        rw [cmpPair_lt_trans h1 h2]
        decide
      · exact hab
    · exact hbc⟩
  haveI : IsAntisymm (String × String) pairLe := ⟨by
    intro a b hab hba
    unfold pairLe at hab hba
    rw [cmpPair_swap a b] at hba
    cases h : cmpPair a b with
    | eq => exact cmpPair_eq_iff.mp h
    | lt =>
      rw [h] at hba
      exact absurd rfl hba
    | gt => exact absurd h hab⟩
  refine ⟨?_, by decide, by decide, by decide, by decide, ?_, fun k s t n c => rfl⟩
  · intro p q hpq
    unfold canonicalizedQuery
    have hs : sortedParams p = sortedParams q := by
      unfold sortedParams
      exact List.eq_of_perm_of_sorted
        ((List.perm_insertionSort pairLe p).trans (hpq.trans (List.perm_insertionSort pairLe q).symm))
        (List.sorted_insertionSort pairLe p) (List.sorted_insertionSort pairLe q)
    rw [hs]
  · intro keyId timestamp nonce content p hp
    simp only [preParams, List.mem_cons, List.not_mem_nil, or_false] at hp
    rcases hp with rfl | rfl | rfl | rfl | rfl | rfl | rfl | rfl | rfl | rfl <;> simp

/-- Witness for `canonicalization_spec`: the two-parameter example of the
specification in both insertion orders. -/
theorem canonicalization_spec_witness :
    ([("Action", "X"), ("AccessKeyId", "Y")].Perm [("AccessKeyId", "Y"), ("Action", "X")])
  ∧ canonicalizedQuery [("Action", "X"), ("AccessKeyId", "Y")]
      = canonicalizedQuery [("AccessKeyId", "Y"), ("Action", "X")] :=
  ⟨List.Perm.swap ("AccessKeyId", "Y") ("Action", "X") [],
   canonicalization_spec.1 _ _ (List.Perm.swap ("AccessKeyId", "Y") ("Action", "X") [])⟩

/-! ## Reference vectors

Cross-checks of the embedded primitives and of the full signing pipeline
against independently computed values (`hashlib` / `hmac` / `base64` /
`urllib` / `json` reference implementations). -/

set_option maxRecDepth 1000000 in
theorem sha1_abc_vector :
    sha1 (utf8Encode "abc")
      = [0xa9, 0x99, 0x3e, 0x36, 0x47, 0x06, 0x81, 0x6a, 0xba, 0x3e,
         0x25, 0x71, 0x78, 0x50, 0xc2, 0x6c, 0x9c, 0xd0, 0xd8, 0x9d] := by
  decide

set_option maxRecDepth 1000000 in
theorem hmacSha1_vector :
    String.mk (base64Encode (hmacSha1 (utf8Encode "key")
        (utf8Encode "The quick brown fox jumps over the lazy dog")))
      = "3nybhbi3iqa8ino29wqQcBydtNk=" := by
  decide

set_option maxRecDepth 1000000 in
theorem canonicalizedQuery_vector :
    canonicalizedQuery (preParams "testid" "2026-01-02T03:04:05Z" "abc-123" "hello world".data)
      = "AccessKeyId=testid&Action=TextModerationPlus&Format=JSON&Service=chat_detection_pro&ServiceParameters=%7B%22content%22%3A%20%22hello%20world%22%7D&SignatureMethod=HMAC-SHA1&SignatureNonce=abc-123&SignatureVersion=1.0&Timestamp=2026-01-02T03%3A04%3A05Z&Version=2022-03-02" := by
  decide

set_option maxRecDepth 1000000 in
theorem signature_vector :
    signatureOf "testsecret" (preParams "testid" "2026-01-02T03:04:05Z" "abc-123" "hello world".data)
      = "Sdb2iNvnOGKaSHbERECMAEJULeE=" := by
  decide
